import Mathlib

/-!
Verification development for a small Node/Express product-catalog proxy.

The repository has two source files (src/index.js and an unnamed sibling)
sharing the same fetch layer. The components modelled here:

- getAll: a bounded retry loop around an upstream HTTP GET; each attempt
  either succeeds with a parsed payload or fails (network error, timeout
  cancellation, or a non-2xx status, which the code turns into a thrown
  error). The upstream is modelled as a sequence of per-attempt results.
- getById: a single fetch; null on any failure, the parsed record on
  success; plus the route that serves 200 or 404 from it.
- filterProducts: a pure in-memory filter applying, in order, a title
  substring pass, a slug equality pass, and inclusive minPrice and
  maxPrice bounds.

JavaScript platform primitives used by the code are modelled over exact
rationals extended with the signed infinities (JSNum): parseFloat reads
the longest valid numeric leading part, a decimal literal (sign, digits,
fraction, exponent) or a signed Infinity literal; NaN is the none
result. The IEEE rounding of finite values is not modelled.
String.prototype.trim and toLowerCase are modelled over the character
list (jsTrim, jsToLower; ASCII lowering, and the whitespace sets of the
two platforms agree on the inputs considered here).
-/

namespace NNPTUD

/-- A product record as the filter sees it: the three examined fields,
each possibly absent. Other upstream fields pass through unexamined and
are not modelled. A missing field reads as undefined in the code and is
handled there by defaulting. -/
structure Product where
  title : Option String
  slug : Option String
  price : Option Rat
deriving DecidableEq

/-- The query constraints of GET /api/products: four optional fields,
each a raw query-string value when present. -/
structure Query where
  title : Option String
  slug : Option String
  minPrice : Option String
  maxPrice : Option String
deriving DecidableEq

/-- Model of String.prototype.trim: drop whitespace from both ends.
Defined over the character list so that it evaluates by kernel
reduction. -/
def jsTrim (s : String) : String :=
  String.mk (((s.toList.dropWhile Char.isWhitespace).reverse.dropWhile Char.isWhitespace).reverse)

/-- Model of String.prototype.toLowerCase: lower each character (ASCII
lowering). Defined over the character list so that it evaluates by
kernel reduction. -/
def jsToLower (s : String) : String :=
  String.mk (s.toList.map Char.toLower)

/-- Does the character list start with the given character list. Models
the leading-match test underlying String.prototype.includes. -/
def charsMatchFront : List Char → List Char → Bool
  | _, [] => true
  | [], _ :: _ => false
  | c :: cs, d :: ds => c == d && charsMatchFront cs ds

/-- Does the first character list contain the second as a contiguous run.
Models substring containment. -/
def charsContain : List Char → List Char → Bool
  | [], needle => charsMatchFront [] needle
  | c :: rest, needle =>
      charsMatchFront (c :: rest) needle || charsContain rest needle

/-- Model of String.prototype.includes: substring containment. -/
def jsIncludes (hay needle : String) : Bool :=
  charsContain hay.toList needle.toList

/-- Numeric value of a run of decimal digits. -/
def digitsVal (ds : List Char) : Nat :=
  ds.foldl (fun a c => a * 10 + (c.toNat - 48)) 0

/-- Core of the decimal-literal parse behind parseFloat: reads an
optional sign, integer digits, an optional fraction, and an optional
exponent from the front of the character list; returns the value and the
unconsumed rest, or none when no digits were found. The value is built
as a single integer quotient so that it evaluates by kernel reduction. -/
def parseDecCore (cs : List Char) : Option (Rat × List Char) :=
  let signAndRest : Int × List Char :=
    match cs with
    | '+' :: r => (1, r)
    | '-' :: r => (-1, r)
    | _ => (1, cs)
  let sign := signAndRest.1
  let cs1 := signAndRest.2
  let ip := cs1.takeWhile Char.isDigit
  let cs2 := cs1.drop ip.length
  let fracAndRest : List Char × List Char :=
    match cs2 with
    | '.' :: r => (r.takeWhile Char.isDigit, r.drop (r.takeWhile Char.isDigit).length)
    | _ => ([], cs2)
  let fp := fracAndRest.1
  let cs3 := fracAndRest.2
  if ip.isEmpty && fp.isEmpty then none
  else
    let n0 : Int := sign * (digitsVal ip * 10 ^ fp.length + digitsVal fp)
    let d0 : Nat := 10 ^ fp.length
    match cs3 with
    | c :: r =>
      if c == 'e' || c == 'E' then
        let expSignAndRest : Bool × List Char :=
          match r with
          | '+' :: r2 => (false, r2)
          | '-' :: r2 => (true, r2)
          | _ => (false, r)
        let eneg := expSignAndRest.1
        let r1 := expSignAndRest.2
        let ed := r1.takeWhile Char.isDigit
        if ed.isEmpty then some (Rat.divInt n0 d0, cs3)
        else
          let e := digitsVal ed
          some (if eneg then Rat.divInt n0 (d0 * 10 ^ e) else Rat.divInt (n0 * 10 ^ e) d0,
            r1.drop ed.length)
      else some (Rat.divInt n0 d0, cs3)
    | [] => some (Rat.divInt n0 d0, [])

/-- A parsed JavaScript number that is not NaN: a finite value or one of
the signed infinities. The infinities arise from the Infinity literal
accepted by parseFloat and by string-to-number coercion; they pass the
isNaN guard in the code and are applied as bounds. -/
inductive JSNum where
  | finite (q : Rat)
  | posInf
  | negInf
deriving DecidableEq

/-- The JavaScript comparison a greater-or-equal b on non-NaN numbers,
with the usual ordering of the signed infinities. -/
def jsNumGe : JSNum → JSNum → Bool
  | .finite x, .finite y => decide (y ≤ x)
  | .finite _, .posInf => false
  | .finite _, .negInf => true
  | .posInf, _ => true
  | .negInf, .negInf => true
  | .negInf, _ => false

/-- The JavaScript comparison a less-or-equal b on non-NaN numbers. -/
def jsNumLe (a b : JSNum) : Bool :=
  jsNumGe b a

/-- The characters of the Infinity literal. -/
def infinityChars : List Char :=
  "Infinity".toList

/-- Reads an optional sign followed by the Infinity literal from the
front of the character list, returning the signed infinity and the
unconsumed rest. -/
def parseSignInfinity (cs : List Char) : Option (JSNum × List Char) :=
  let signAndRest : Bool × List Char :=
    match cs with
    | '+' :: r => (false, r)
    | '-' :: r => (true, r)
    | _ => (false, cs)
  if charsMatchFront signAndRest.2 infinityChars then
    some (if signAndRest.1 then JSNum.negInf else JSNum.posInf,
      signAndRest.2.drop infinityChars.length)
  else none

/-- Model of the global parseFloat: skip leading whitespace, then parse
the longest leading numeric literal, a signed Infinity or a decimal
literal; none stands for NaN. -/
def parseFloat (s : String) : Option JSNum :=
  let cs := s.toList.dropWhile Char.isWhitespace
  match parseSignInfinity cs with
  | some pr => some pr.1
  | none => (parseDecCore cs).map (fun pr => JSNum.finite pr.1)

/-- The title block of filterProducts: when query.title is truthy and
trims to a nonempty string, keep the records whose defaulted title
contains the trimmed, lowercased constraint, case-insensitively. -/
def titlePass (query : Query) (result : List Product) : List Product :=
  match query.title with
  | some s =>
    if s ≠ "" ∧ jsTrim s ≠ "" then
      let titleLower := jsToLower (jsTrim s)
      result.filter (fun p => jsIncludes (jsToLower (p.title.getD "")) titleLower)
    else result
  | none => result

/-- The slug block of filterProducts: when query.slug is truthy and trims
to a nonempty string, keep the records whose defaulted slug equals the
trimmed constraint exactly. -/
def slugPass (query : Query) (result : List Product) : List Product :=
  match query.slug with
  | some s =>
    if s ≠ "" ∧ jsTrim s ≠ "" then
      let slugVal := jsTrim s
      result.filter (fun p => (p.slug.getD "") == slugVal)
    else result
  | none => result

/-- The minPrice block of filterProducts: when query.minPrice is present
and not the empty string, and parses to a number, keep the records whose
defaulted price is at least that bound. -/
def minPricePass (query : Query) (result : List Product) : List Product :=
  match query.minPrice with
  | some s =>
    if s ≠ "" then
      match parseFloat s with
      | some mn => result.filter (fun p => jsNumGe (JSNum.finite (p.price.getD 0)) mn)
      | none => result
    else result
  | none => result

/-- The maxPrice block of filterProducts: when query.maxPrice is present
and not the empty string, and parses to a number, keep the records whose
defaulted price is at most that bound. -/
def maxPricePass (query : Query) (result : List Product) : List Product :=
  match query.maxPrice with
  | some s =>
    if s ≠ "" then
      match parseFloat s with
      | some mx => result.filter (fun p => jsNumLe (JSNum.finite (p.price.getD 0)) mx)
      | none => result
    else result
  | none => result

/-- filterProducts from the source: start from a shallow copy of the
input list and apply the four narrowing blocks in source order, title
then slug then minPrice then maxPrice. -/
def filterProducts (products : List Product) (query : Query) : List Product :=
  let result := products
  let result := titlePass query result
  let result := slugPass query result
  let result := minPricePass query result
  let result := maxPricePass query result
  result

/-- Per-attempt keep decision of the title block, as a predicate: true
when the block is inactive or the record passes the substring test. -/
def titleKeep (query : Query) (p : Product) : Bool :=
  match query.title with
  | some s =>
    if s ≠ "" ∧ jsTrim s ≠ "" then
      jsIncludes (jsToLower (p.title.getD "")) (jsToLower (jsTrim s))
    else true
  | none => true

/-- Keep decision of the slug block, as a predicate. -/
def slugKeep (query : Query) (p : Product) : Bool :=
  match query.slug with
  | some s =>
    if s ≠ "" ∧ jsTrim s ≠ "" then (p.slug.getD "") == jsTrim s
    else true
  | none => true

/-- Keep decision of the minPrice block, as a predicate. -/
def minPriceKeep (query : Query) (p : Product) : Bool :=
  match query.minPrice with
  | some s =>
    if s ≠ "" then
      match parseFloat s with
      | some mn => jsNumGe (JSNum.finite (p.price.getD 0)) mn
      | none => true
    else true
  | none => true

/-- Keep decision of the maxPrice block, as a predicate. -/
def maxPriceKeep (query : Query) (p : Product) : Bool :=
  match query.maxPrice with
  | some s =>
    if s ≠ "" then
      match parseFloat s with
      | some mx => jsNumLe (JSNum.finite (p.price.getD 0)) mx
      | none => true
    else true
  | none => true

/-- The retry budget of the collection fetch, from the source. -/
def FETCH_RETRIES : Nat := 2

/-- The per-attempt timeout of the collection fetch, in milliseconds,
from the source. A timeout aborts the in-flight request and surfaces as
a failed attempt; real time itself is not modelled. -/
def FETCH_TIMEOUT_MS : Nat := 15000

/-- Outcome of one attempt of the collection fetch: a failure (network
error, cancellation by the timeout, or a non-2xx status, which the code
raises on) or a success carrying the parsed payload. -/
inductive AttemptResult where
  | failure
  | success (payload : List Product)
deriving DecidableEq

/-- The retry loop of getAll over an upstream modelled as a sequence of
per-attempt results: at each remaining attempt, a success returns its
payload at once and a failure moves on to the next attempt; with no
attempts left the result is the empty list. The second component counts
the attempts actually made. -/
def getAllAux (upstream : Nat → AttemptResult) : Nat → Nat → List Product × Nat
  | _, 0 => ([], 0)
  | attempt, fuel + 1 =>
    match upstream attempt with
    | .success payload => (payload, 1)
    | .failure =>
      let rest := getAllAux upstream (attempt + 1) fuel
      (rest.1, rest.2 + 1)

/-- getAll from the source: attempts 1 through FETCH_RETRIES + 1, each
failure retried until the budget runs out, then the empty list. -/
def getAll (upstream : Nat → AttemptResult) : List Product :=
  (getAllAux upstream 1 (FETCH_RETRIES + 1)).1

/-- Number of attempts getAll makes against the given upstream. -/
def getAllAttempts (upstream : Nat → AttemptResult) : Nat :=
  (getAllAux upstream 1 (FETCH_RETRIES + 1)).2

/-- Outcome of the single fetch of getById: a thrown error (network
failure or an unparseable body) or an HTTP response with its ok flag and
parsed body. -/
inductive ItemFetch where
  | netError
  | httpResponse (ok : Bool) (body : Product)
deriving DecidableEq

/-- getById from the source: null on a thrown error, null on a non-ok
response, the parsed body otherwise. -/
def getById (r : ItemFetch) : Option Product :=
  match r with
  | .netError => none
  | .httpResponse ok body => if ok then some body else none

/-- Body of a reply of the GET /api/products/:id route: either a product
serialized as JSON or an object with an error field. -/
inductive RouteBody where
  | productBody (p : Product)
  | errorBody (msg : String)
deriving DecidableEq

/-- The GET /api/products/:id handler from the source: 404 with an error
object when getById yields null, 200 with the product otherwise. -/
def productByIdRoute (r : ItemFetch) : Nat × RouteBody :=
  match getById r with
  | none => (404, .errorBody "Sản phẩm không tồn tại")
  | some p => (200, .productBody p)

/-- A heap of product records for the store-passing model of
filterProducts: record references are indices into the store, so that
mutation of a record or of the store would be visible as a changed
store component. -/
def Store := List Product

/-- Read the record behind a reference. -/
def storeRead (st : Store) (r : Nat) : Option Product :=
  List.get? st r

/-- The title block over the store-passing state: the same narrowing as
titlePass, reading each record through its reference; the store
component is passed through. -/
def titlePassST (query : Query) (s : Store × List Nat) : Store × List Nat :=
  match query.title with
  | some t =>
    if t ≠ "" ∧ jsTrim t ≠ "" then
      (s.1, s.2.filter (fun r =>
        jsIncludes (jsToLower (((storeRead s.1 r).bind Product.title).getD ""))
          (jsToLower (jsTrim t))))
    else s
  | none => s

/-- The slug block over the store-passing state. -/
def slugPassST (query : Query) (s : Store × List Nat) : Store × List Nat :=
  match query.slug with
  | some t =>
    if t ≠ "" ∧ jsTrim t ≠ "" then
      (s.1, s.2.filter (fun r =>
        (((storeRead s.1 r).bind Product.slug).getD "") == jsTrim t))
    else s
  | none => s

/-- The minPrice block over the store-passing state. -/
def minPricePassST (query : Query) (s : Store × List Nat) : Store × List Nat :=
  match query.minPrice with
  | some t =>
    if t ≠ "" then
      match parseFloat t with
      | some mn =>
        (s.1, s.2.filter (fun r =>
          jsNumGe (JSNum.finite (((storeRead s.1 r).bind Product.price).getD 0)) mn))
      | none => s
    else s
  | none => s

/-- The maxPrice block over the store-passing state. -/
def maxPricePassST (query : Query) (s : Store × List Nat) : Store × List Nat :=
  match query.maxPrice with
  | some t =>
    if t ≠ "" then
      match parseFloat t with
      | some mx =>
        (s.1, s.2.filter (fun r =>
          jsNumLe (JSNum.finite (((storeRead s.1 r).bind Product.price).getD 0)) mx))
      | none => s
    else s
  | none => s

/-- filterProducts in the store-passing model: the input is a reference
list into the store; the shallow copy duplicates the reference list, not
the records, and the four blocks narrow it in source order while the
store is threaded through every step. -/
def filterProductsST (st : Store) (refs : List Nat) (query : Query) : Store × List Nat :=
  maxPricePassST query (minPricePassST query (slugPassST query (titlePassST query (st, refs))))

/-- A JavaScript value as the filter can meet one: absent, a string, or
a number. This raw model underlies the no-exception claim, where the
defaulting in the code is what prevents a method call on undefined. -/
inductive JSVal where
  | undef
  | str (s : String)
  | num (q : Rat)
deriving DecidableEq

/-- A raw record: the three examined fields as JavaScript values. -/
structure RawProduct where
  title : JSVal
  slug : JSVal
  price : JSVal
deriving DecidableEq

/-- A raw constraint mapping: the four fields as JavaScript values. -/
structure RawQuery where
  title : JSVal
  slug : JSVal
  minPrice : JSVal
  maxPrice : JSVal
deriving DecidableEq

/-- JavaScript truthiness of a value. -/
def jsTruthy : JSVal → Bool
  | .undef => false
  | .str s => s != ""
  | .num q => q != 0

/-- The JavaScript or-default idiom a-or-b: a when truthy, else b. -/
def jsOr (a b : JSVal) : JSVal :=
  if jsTruthy a then a else b

/-- The JavaScript nullish-coalescing idiom: b only when a is absent. -/
def jsNullish (a b : JSVal) : JSVal :=
  match a with
  | .undef => b
  | v => v

/-- Calling trim on a value: a TypeError unless it is a string. -/
def jsTrimE : JSVal → Except String String
  | .str s => .ok (jsTrim s)
  | _ => .error "TypeError: trim is not a function"

/-- Calling toLowerCase on a value: a TypeError unless it is a string. -/
def jsToLowerE : JSVal → Except String String
  | .str s => .ok (jsToLower s)
  | _ => .error "TypeError: toLowerCase is not a function"

/-- parseFloat applied to a value: a string parses as a decimal literal,
a number stands for itself, undefined coerces to a non-numeric string.
No input makes parseFloat throw. -/
def jsParseFloat : JSVal → Option JSNum
  | .str s => parseFloat s
  | .num q => some (.finite q)
  | .undef => none

/-- Numeric coercion of a value for a comparison: undefined is NaN, a
string is converted as a whole (empty and blank strings to zero, a
signed Infinity literal to the matching infinity). -/
def jsToNumber : JSVal → Option JSNum
  | .undef => none
  | .num q => some (.finite q)
  | .str s =>
    let t := jsTrim s
    if t = "" then some (.finite 0)
    else
      match parseSignInfinity t.toList with
      | some (n, []) => some n
      | _ =>
        match parseDecCore t.toList with
        | some (q, []) => some (.finite q)
        | _ => none

/-- The comparison value-at-least-bound with JavaScript coercion: false
when the value coerces to NaN. -/
def jsGeB (a : JSVal) (m : JSNum) : Bool :=
  match jsToNumber a with
  | some v => jsNumGe v m
  | none => false

/-- The comparison value-at-most-bound with JavaScript coercion. -/
def jsLeB (a : JSVal) (m : JSNum) : Bool :=
  match jsToNumber a with
  | some v => jsNumLe v m
  | none => false

/-- Array.prototype.filter with a predicate that can throw: elements are
tested left to right and a thrown error propagates. -/
def filterE {α : Type} (f : α → Except String Bool) : List α → Except String (List α)
  | [] => .ok []
  | x :: xs => do
    let b ← f x
    let rest ← filterE f xs
    pure (if b then x :: rest else rest)

/-- The title block over raw values: the truthiness test, the two trim
calls and the per-record toLowerCase call are each fallible exactly
where the JavaScript method call is. -/
def titlePassE (query : RawQuery) (result : List RawProduct) :
    Except String (List RawProduct) := do
  if jsTruthy query.title then
    let t ← jsTrimE query.title
    if t != "" then
      let t2 ← jsTrimE query.title
      let titleLower := jsToLower t2
      filterE (fun p => do
        let s ← jsToLowerE (jsOr p.title (JSVal.str ""))
        pure (jsIncludes s titleLower)) result
    else pure result
  else pure result

/-- The slug block over raw values: only the trim calls on the
constraint are fallible; the strict equality test is not. -/
def slugPassE (query : RawQuery) (result : List RawProduct) :
    Except String (List RawProduct) := do
  if jsTruthy query.slug then
    let t ← jsTrimE query.slug
    if t != "" then
      let slugVal ← jsTrimE query.slug
      filterE (fun p =>
        pure (jsOr p.slug (JSVal.str "") == JSVal.str slugVal)) result
    else pure result
  else pure result

/-- The minPrice block over raw values: no operation in it can throw. -/
def minPricePassE (query : RawQuery) (result : List RawProduct) : List RawProduct :=
  if query.minPrice ≠ JSVal.undef ∧ query.minPrice ≠ JSVal.str "" then
    match jsParseFloat query.minPrice with
    | some mn => result.filter (fun p => jsGeB (jsNullish p.price (JSVal.num 0)) mn)
    | none => result
  else result

/-- The maxPrice block over raw values: no operation in it can throw. -/
def maxPricePassE (query : RawQuery) (result : List RawProduct) : List RawProduct :=
  if query.maxPrice ≠ JSVal.undef ∧ query.maxPrice ≠ JSVal.str "" then
    match jsParseFloat query.maxPrice with
    | some mx => result.filter (fun p => jsLeB (jsNullish p.price (JSVal.num 0)) mx)
    | none => result
  else result

/-- filterProducts over raw JavaScript values, with every fallible
method call explicit: the four blocks run in source order and a thrown
TypeError propagates out. -/
def filterProductsE (products : List RawProduct) (query : RawQuery) :
    Except String (List RawProduct) := do
  let r1 ← titlePassE query products
  let r2 ← slugPassE query r1
  let r3 := minPricePassE query r2
  let r4 := maxPricePassE query r3
  pure r4

/-- A value that is absent or a string, as the shape of a record text
field and of a raw constraint field. -/
def strOrUndef (v : JSVal) : Prop := v = .undef ∨ ∃ s, v = .str s

/-- A value that is absent or a number, as the shape of a record price
field. -/
def numOrUndef (v : JSVal) : Prop := v = .undef ∨ ∃ q, v = .num q

/-- The combined keep decision of the four blocks, grouped to match the
shape produced by fusing the four narrowing passes into one filter. -/
def keepAll (query : Query) (p : Product) : Bool :=
  maxPriceKeep query p && (minPriceKeep query p && (slugKeep query p && titleKeep query p))

/-- The Shoe record of the worked example in the spec. -/
def shoe : Product := ⟨some "Shoe", some "shoe-1", some 10⟩

/-- The Hat record of the worked example in the spec. -/
def hat : Product := ⟨some "Hat", some "hat-1", some 50⟩

/-- The title block equals one filter by its keep decision. -/
theorem titlePass_eq (query : Query) (l : List Product) :
    titlePass query l = l.filter (titleKeep query) := by
  unfold titlePass titleKeep
  cases query.title with
  | none => simp
  | some s =>
    by_cases hc : s ≠ "" ∧ jsTrim s ≠ ""
    · simp [hc]
    · simp [hc]

/-- The slug block equals one filter by its keep decision. -/
theorem slugPass_eq (query : Query) (l : List Product) :
    slugPass query l = l.filter (slugKeep query) := by
  unfold slugPass slugKeep
  cases query.slug with
  | none => simp
  | some s =>
    by_cases hc : s ≠ "" ∧ jsTrim s ≠ ""
    · simp [hc]
    · simp [hc]

/-- The minPrice block equals one filter by its keep decision. -/
theorem minPricePass_eq (query : Query) (l : List Product) :
    minPricePass query l = l.filter (minPriceKeep query) := by
  unfold minPricePass minPriceKeep
  cases query.minPrice with
  | none => simp
  | some s =>
    by_cases hs : s = ""
    · simp [hs]
    · cases hp : parseFloat s <;> simp [hs, hp]

/-- The maxPrice block equals one filter by its keep decision. -/
theorem maxPricePass_eq (query : Query) (l : List Product) :
    maxPricePass query l = l.filter (maxPriceKeep query) := by
  unfold maxPricePass maxPriceKeep
  cases query.maxPrice with
  | none => simp
  | some s =>
    by_cases hs : s = ""
    · simp [hs]
    · cases hp : parseFloat s <;> simp [hs, hp]

/-- filterProducts is the fusion of the four blocks into one filter by
the combined keep decision. -/
theorem filterProducts_eq_keepAll (l : List Product) (query : Query) :
    filterProducts l query = l.filter (keepAll query) := by
  show maxPricePass query (minPricePass query (slugPass query (titlePass query l))) = _
  rw [titlePass_eq, slugPass_eq, minPricePass_eq, maxPricePass_eq,
    List.filter_filter, List.filter_filter, List.filter_filter]
  congr 1
  funext p
  simp [keepAll, Bool.and_assoc]

/-- charsMatchFront decides the leading-run relation. -/
theorem charsMatchFront_iff (n h : List Char) :
    charsMatchFront h n = true ↔ ∃ r, h = n ++ r := by
  induction n generalizing h with
  | nil => simp [charsMatchFront]
  | cons d ds ih =>
    cases h with
    | nil => simp [charsMatchFront]
    | cons c cs =>
      rw [charsMatchFront]
      simp only [Bool.and_eq_true, beq_iff_eq, ih]
      constructor
      · rintro ⟨rfl, r, rfl⟩
        exact ⟨r, rfl⟩
      · rintro ⟨r, hr⟩
        rw [List.cons_append] at hr
        cases hr
        exact ⟨rfl, r, rfl⟩

/-- charsContain decides the contiguous-run containment relation. -/
theorem charsContain_iff (h n : List Char) :
    charsContain h n = true ↔ ∃ u v, h = u ++ n ++ v := by
  induction h with
  | nil =>
    rw [charsContain, charsMatchFront_iff]
    constructor
    · rintro ⟨r, hr⟩
      exact ⟨[], r, hr⟩
    · rintro ⟨u, v, huv⟩
      have hu : u = [] := by
        cases u with
        | nil => rfl
        | cons a as => simp at huv
      subst hu
      exact ⟨v, huv⟩
  | cons c rest ih =>
    rw [charsContain]
    simp only [Bool.or_eq_true, charsMatchFront_iff, ih]
    constructor
    · rintro (⟨r, hr⟩ | ⟨u, v, huv⟩)
      · exact ⟨[], r, hr⟩
      · exact ⟨c :: u, v, by simp [huv]⟩
    · rintro ⟨u, v, huv⟩
      cases u with
      | nil => exact Or.inl ⟨v, by simpa using huv⟩
      | cons a as =>
        rw [List.cons_append, List.cons_append] at huv
        cases huv
        exact Or.inr ⟨as, v, rfl⟩

/-- The title block leaves the list unchanged when its constraint is
absent or blank. -/
theorem titlePass_id (query : Query) (l : List Product)
    (h : query.title = none ∨ ∃ s, query.title = some s ∧ jsTrim s = "") :
    titlePass query l = l := by
  unfold titlePass
  rcases h with h | ⟨s, h, hb⟩ <;> rw [h]
  simp [hb]

/-- The slug block leaves the list unchanged when its constraint is
absent or blank. -/
theorem slugPass_id (query : Query) (l : List Product)
    (h : query.slug = none ∨ ∃ s, query.slug = some s ∧ jsTrim s = "") :
    slugPass query l = l := by
  unfold slugPass
  rcases h with h | ⟨s, h, hb⟩ <;> rw [h]
  simp [hb]

/-- The minPrice block leaves the list unchanged when its constraint is
absent or empty. -/
theorem minPricePass_id (query : Query) (l : List Product)
    (h : query.minPrice = none ∨ query.minPrice = some "") :
    minPricePass query l = l := by
  unfold minPricePass
  rcases h with h | h <;> simp [h]

/-- The maxPrice block leaves the list unchanged when its constraint is
absent or empty. -/
theorem maxPricePass_id (query : Query) (l : List Product)
    (h : query.maxPrice = none ∨ query.maxPrice = some "") :
    maxPricePass query l = l := by
  unfold maxPricePass
  rcases h with h | h <;> simp [h]

/-- The title block over the store-passing state leaves the store alone
and only narrows the reference list. -/
theorem titlePassST_frame (query : Query) (s : Store × List Nat) :
    (titlePassST query s).1 = s.1 ∧ List.Sublist (titlePassST query s).2 s.2 := by
  cases h : query.title with
  | none => simp [titlePassST, h]
  | some t =>
    by_cases hc : t ≠ "" ∧ jsTrim t ≠ ""
    · simp [titlePassST, h, hc]
    · simp [titlePassST, h, hc]

/-- The slug block over the store-passing state leaves the store alone
and only narrows the reference list. -/
theorem slugPassST_frame (query : Query) (s : Store × List Nat) :
    (slugPassST query s).1 = s.1 ∧ List.Sublist (slugPassST query s).2 s.2 := by
  cases h : query.slug with
  | none => simp [slugPassST, h]
  | some t =>
    by_cases hc : t ≠ "" ∧ jsTrim t ≠ ""
    · simp [slugPassST, h, hc]
    · simp [slugPassST, h, hc]

/-- The minPrice block over the store-passing state leaves the store
alone and only narrows the reference list. -/
theorem minPricePassST_frame (query : Query) (s : Store × List Nat) :
    (minPricePassST query s).1 = s.1 ∧ List.Sublist (minPricePassST query s).2 s.2 := by
  cases h : query.minPrice with
  | none => simp [minPricePassST, h]
  | some t =>
    by_cases ht : t = ""
    · simp [minPricePassST, h, ht]
    · cases hp : parseFloat t <;> simp [minPricePassST, h, ht, hp]

/-- The maxPrice block over the store-passing state leaves the store
alone and only narrows the reference list. -/
theorem maxPricePassST_frame (query : Query) (s : Store × List Nat) :
    (maxPricePassST query s).1 = s.1 ∧ List.Sublist (maxPricePassST query s).2 s.2 := by
  cases h : query.maxPrice with
  | none => simp [maxPricePassST, h]
  | some t =>
    by_cases ht : t = ""
    · simp [maxPricePassST, h, ht]
    · cases hp : parseFloat t <;> simp [maxPricePassST, h, ht, hp]

/-- A pure value in the error monad is an ok result. -/
theorem pureOk {a : Type} (x : a) : (pure x : Except String a) = Except.ok x := rfl

/-- Sequencing after an ok result applies the continuation. -/
theorem okBind {a b : Type} (x : a) (f : a → Except String b) :
    (Except.ok x >>= f) = f x := rfl

/-- Filtering with a predicate that returns normally on every element of
the list returns normally, and yields only elements of the list. -/
theorem filterE_ok_of {α : Type} (f : α → Except String Bool) (l : List α)
    (h : ∀ x ∈ l, ∃ b, f x = .ok b) :
    ∃ r, filterE f l = .ok r ∧ ∀ x ∈ r, x ∈ l := by
  induction l with
  | nil => exact ⟨[], rfl, by simp⟩
  | cons x xs ih =>
    obtain ⟨b, hb⟩ := h x (by simp)
    obtain ⟨r, hr, hsub⟩ := ih (fun y hy => h y (by simp [hy]))
    refine ⟨if b then x :: r else r, ?_, ?_⟩
    · rw [filterE, hb, hr]
      rfl
    · intro y hy
      cases b with
      | true =>
        simp at hy
        rcases hy with rfl | hy
        · exact List.mem_cons_self _ _
        · exact List.mem_cons_of_mem _ (hsub y hy)
      | false =>
        simp at hy
        exact List.mem_cons_of_mem _ (hsub y hy)

/-- Defaulting an absent-or-string value with the empty string always
yields a string. -/
theorem jsOr_str_of (v : JSVal) (h : strOrUndef v) :
    ∃ s, jsOr v (JSVal.str "") = JSVal.str s := by
  rcases h with rfl | ⟨s, rfl⟩
  · exact ⟨"", rfl⟩
  · by_cases hs : s = "" <;> simp [jsOr, jsTruthy, hs]

/-- The title block over raw values returns normally on a shaped
constraint and shaped records, yielding elements of the input. -/
theorem titlePassE_ok (query : RawQuery) (l : List RawProduct)
    (hqt : strOrUndef query.title) (hl : ∀ p ∈ l, strOrUndef p.title) :
    ∃ r, titlePassE query l = .ok r ∧ ∀ x ∈ r, x ∈ l := by
  rcases hqt with hq | ⟨s, hq⟩
  · exact ⟨l, by simp [titlePassE, hq, jsTruthy, pureOk], fun x hx => hx⟩
  · by_cases hs : s = ""
    · exact ⟨l, by simp [titlePassE, hq, hs, jsTruthy, pureOk], fun x hx => hx⟩
    · have hcond : jsTruthy (JSVal.str s) = true := by simp [jsTruthy, hs]
      by_cases hb : jsTrim s = ""
      · refine ⟨l, ?_, fun x hx => hx⟩
        simp [titlePassE, hq, hcond, jsTrimE, hb, okBind, pureOk]
      · obtain ⟨r, hr, hsub⟩ := filterE_ok_of
          (fun p => jsToLowerE (jsOr p.title (JSVal.str "")) >>= fun s2 =>
            Except.ok (jsIncludes s2 (jsToLower (jsTrim s))))
          l
          (by
            intro x hx
            obtain ⟨t2, ht2⟩ := jsOr_str_of x.title (hl x hx)
            exact ⟨jsIncludes (jsToLower t2) (jsToLower (jsTrim s)), by
              simp [ht2, jsToLowerE, okBind]⟩)
        refine ⟨r, ?_, hsub⟩
        simp [titlePassE, hq, hcond, jsTrimE, hb, hr, okBind, pureOk]

/-- The slug block over raw values returns normally on a shaped
constraint, yielding elements of the input; its per-record test cannot
throw. -/
theorem slugPassE_ok (query : RawQuery) (l : List RawProduct)
    (hqs : strOrUndef query.slug) :
    ∃ r, slugPassE query l = .ok r ∧ ∀ x ∈ r, x ∈ l := by
  rcases hqs with hq | ⟨s, hq⟩
  · exact ⟨l, by simp [slugPassE, hq, jsTruthy, pureOk], fun x hx => hx⟩
  · by_cases hs : s = ""
    · exact ⟨l, by simp [slugPassE, hq, hs, jsTruthy, pureOk], fun x hx => hx⟩
    · have hcond : jsTruthy (JSVal.str s) = true := by simp [jsTruthy, hs]
      by_cases hb : jsTrim s = ""
      · refine ⟨l, ?_, fun x hx => hx⟩
        simp [slugPassE, hq, hcond, jsTrimE, hb, okBind, pureOk]
      · obtain ⟨r, hr, hsub⟩ := filterE_ok_of
          (fun p => Except.ok (jsOr p.slug (JSVal.str "") == JSVal.str (jsTrim s)))
          l
          (fun x _ => ⟨_, rfl⟩)
        refine ⟨r, ?_, hsub⟩
        simp [slugPassE, hq, hcond, jsTrimE, hb, hr, okBind, pureOk]

/-- filterProducts written as the explicit composition of its four
blocks. -/
theorem filterProducts_passes (l : List Product) (q : Query) :
    filterProducts l q = maxPricePass q (minPricePass q (slugPass q (titlePass q l))) := rfl

/-- C1: with the upstream modelled as a sequence of per-attempt results,
getAll returns the empty list without raising when all FETCH_RETRIES + 1
attempts fail; when some attempt k within the budget succeeds after the
earlier attempts failed, getAll returns the payload of that attempt; and
getAll never makes more than FETCH_RETRIES + 1 attempts. -/
theorem getAll_retry_spec (u : Nat → AttemptResult) :
    (u 1 = .failure → u 2 = .failure → u 3 = .failure → getAll u = []) ∧
    (∀ k payload, 1 ≤ k → k ≤ FETCH_RETRIES + 1 →
      (∀ j, 1 ≤ j → j < k → u j = .failure) → u k = .success payload →
      getAll u = payload) ∧
    getAllAttempts u ≤ FETCH_RETRIES + 1 := by
  refine ⟨?_, ?_, ?_⟩
  · intro h1 h2 h3
    simp [getAll, FETCH_RETRIES, getAllAux, h1, h2, h3]
  · intro k payload hk1 hk3 hprev hsucc
    have hk3' : k ≤ 3 := hk3
    interval_cases k
    · simp [getAll, FETCH_RETRIES, getAllAux, hsucc]
    · have f1 := hprev 1 (by norm_num) (by norm_num)
      simp [getAll, FETCH_RETRIES, getAllAux, f1, hsucc]
    · have f1 := hprev 1 (by norm_num) (by norm_num)
      have f2 := hprev 2 (by norm_num) (by norm_num)
      simp [getAll, FETCH_RETRIES, getAllAux, f1, f2, hsucc]
  · rcases h1 : u 1 with _ | p1 <;> rcases h2 : u 2 with _ | p2 <;>
      rcases h3 : u 3 with _ | p3 <;>
      simp [getAllAttempts, FETCH_RETRIES, getAllAux, h1, h2, h3]

/-- Witness for C1: an upstream failing on the first two attempts and
succeeding on the third makes getAll return the successful payload. -/
theorem getAll_retry_spec_witness :
    getAll (fun k => if k = 3 then AttemptResult.success [hat] else .failure) = [hat] :=
  (getAll_retry_spec _).2.1 3 [hat] (by decide) (by decide)
    (by intro j h1 h2; interval_cases j <;> rfl) rfl

/-- C2: the minPrice and maxPrice constraints act as inclusive numeric
bounds on the defaulted price, a record missing its price comparing as
price 0; on the worked example with constraint minPrice 20 only the Hat
record survives. -/
theorem filterProducts_price_bounds :
    (∀ l s mn, parseFloat s = some (JSNum.finite mn) →
      filterProducts l ⟨none, none, some s, none⟩ =
        l.filter (fun p => decide (mn ≤ p.price.getD 0))) ∧
    (∀ l s mx, parseFloat s = some (JSNum.finite mx) →
      filterProducts l ⟨none, none, none, some s⟩ =
        l.filter (fun p => decide (p.price.getD 0 ≤ mx))) ∧
    filterProducts [shoe, hat] ⟨none, none, some "20", none⟩ = [hat] := by
  refine ⟨?_, ?_, by decide⟩
  · intro l s mn hpf
    have hs : s ≠ "" := by
      intro h
      have h0 : parseFloat "" = none := by decide
      rw [h, h0] at hpf
      exact Option.noConfusion hpf
    rw [filterProducts_passes]
    simp [titlePass, slugPass, minPricePass, maxPricePass, hs, hpf, jsNumGe]
  · intro l s mx hpf
    have hs : s ≠ "" := by
      intro h
      have h0 : parseFloat "" = none := by decide
      rw [h, h0] at hpf
      exact Option.noConfusion hpf
    rw [filterProducts_passes]
    simp [titlePass, slugPass, minPricePass, maxPricePass, hs, hpf, jsNumLe, jsNumGe]

/-- Witness for C2: the general minPrice equation applied to a concrete
list and bound. -/
theorem filterProducts_price_bounds_witness :
    filterProducts [shoe, hat] ⟨none, none, some "15", none⟩ =
      List.filter (fun p => decide ((15 : Rat) ≤ p.price.getD 0)) [shoe, hat] :=
  filterProducts_price_bounds.1 [shoe, hat] "15" 15 (by decide)

/-- C3: a constraint set whose four fields are all absent or blank makes
filterProducts the identity on the list, in content and order. -/
theorem filterProducts_no_constraints_id (l : List Product) (q : Query)
    (ht : q.title = none ∨ ∃ s, q.title = some s ∧ jsTrim s = "")
    (hs : q.slug = none ∨ ∃ s, q.slug = some s ∧ jsTrim s = "")
    (hmin : q.minPrice = none ∨ q.minPrice = some "")
    (hmax : q.maxPrice = none ∨ q.maxPrice = some "") :
    filterProducts l q = l := by
  show maxPricePass q (minPricePass q (slugPass q (titlePass q l))) = l
  rw [titlePass_id q l ht, slugPass_id q l hs, minPricePass_id q l hmin,
    maxPricePass_id q l hmax]

/-- Witness for C3: a blank title, an empty minPrice and two absent
fields leave a concrete list untouched. -/
theorem filterProducts_no_constraints_id_witness :
    filterProducts [shoe, hat] ⟨some " ", none, some "", none⟩ = [shoe, hat] :=
  filterProducts_no_constraints_id [shoe, hat] ⟨some " ", none, some "", none⟩
    (Or.inr ⟨" ", rfl, by decide⟩) (Or.inl rfl) (Or.inr rfl) (Or.inl rfl)

/-- C4: filterProducts is idempotent; filtering an already-filtered list
with the same constraints changes nothing. -/
theorem filterProducts_idem (l : List Product) (q : Query) :
    filterProducts (filterProducts l q) q = filterProducts l q := by
  simp only [filterProducts_eq_keepAll, List.filter_filter]
  have h : (fun a => keepAll q a && keepAll q a) = keepAll q :=
    funext fun a => Bool.and_self _
  rw [h]

/-- C5: the title constraint keeps exactly the records whose defaulted
title contains the constraint value case-insensitively; jsIncludes is
contiguous-run containment; and the SHO constraint matches the Shoe
record of the worked example. -/
theorem filterProducts_title_substring :
    (∀ l s, jsTrim s ≠ "" →
      filterProducts l ⟨some s, none, none, none⟩ =
        l.filter (fun p => jsIncludes (jsToLower (p.title.getD "")) (jsToLower (jsTrim s)))) ∧
    (∀ a b : String, jsIncludes a b = true ↔ ∃ u v, a.toList = u ++ b.toList ++ v) ∧
    filterProducts [shoe, hat] ⟨some "SHO", none, none, none⟩ = [shoe] := by
  refine ⟨?_, ?_, by decide⟩
  · intro l s htrim
    have hs : s ≠ "" := by
      intro h
      apply htrim
      rw [h]
      rfl
    rw [filterProducts_passes]
    simp [titlePass, slugPass, minPricePass, maxPricePass, hs, htrim]
  · intro a b
    exact charsContain_iff a.toList b.toList

/-- Witness for C5: the general title equation applied to a concrete
list and constraint. -/
theorem filterProducts_title_substring_witness :
    filterProducts [shoe, hat] ⟨some "SHO ", none, none, none⟩ =
      List.filter
        (fun p => jsIncludes (jsToLower (p.title.getD "")) (jsToLower (jsTrim "SHO ")))
        [shoe, hat] :=
  filterProducts_title_substring.1 [shoe, hat] "SHO " (by decide)

/-- C6: a minPrice or maxPrice value that does not parse as a number is
ignored; in particular the constraint maxPrice abc leaves any list
unchanged. The boundary of the claim: the Infinity literal does parse,
so a minPrice of Infinity is applied and empties the list rather than
being ignored. -/
theorem filterProducts_malformed_price :
    (∀ l s, parseFloat s = none → filterProducts l ⟨none, none, none, some s⟩ = l) ∧
    (∀ l s, parseFloat s = none → filterProducts l ⟨none, none, some s, none⟩ = l) ∧
    parseFloat "abc" = none ∧
    (∀ l, filterProducts l ⟨none, none, none, some "abc"⟩ = l) ∧
    parseFloat "Infinity" = some JSNum.posInf ∧
    (∀ l, filterProducts l ⟨none, none, some "Infinity", none⟩ = []) := by
  have hmax : ∀ l s, parseFloat s = none →
      filterProducts l ⟨none, none, none, some s⟩ = l := by
    intro l s hpf
    rw [filterProducts_passes]
    by_cases hs : s = ""
    · simp [titlePass, slugPass, minPricePass, maxPricePass, hs]
    · simp [titlePass, slugPass, minPricePass, maxPricePass, hs, hpf]
  have hmin : ∀ l s, parseFloat s = none →
      filterProducts l ⟨none, none, some s, none⟩ = l := by
    intro l s hpf
    rw [filterProducts_passes]
    by_cases hs : s = ""
    · simp [titlePass, slugPass, minPricePass, maxPricePass, hs]
    · simp [titlePass, slugPass, minPricePass, maxPricePass, hs, hpf]
  have hinf : parseFloat "Infinity" = some JSNum.posInf := by decide
  have hne : ("Infinity" : String) ≠ "" := by decide
  have hempty : ∀ l : List Product,
      filterProducts l ⟨none, none, some "Infinity", none⟩ = [] := by
    intro l
    rw [filterProducts_passes]
    simp [titlePass, slugPass, minPricePass, maxPricePass, hinf, hne, jsNumGe]
  exact ⟨hmax, hmin, by decide, fun l => hmax l "abc" (by decide), hinf, hempty⟩

/-- Witness for C6: a concrete unparseable maxPrice leaves a concrete
list unchanged. -/
theorem filterProducts_malformed_price_witness :
    filterProducts [shoe, hat] ⟨none, none, none, some "xyz"⟩ = [shoe, hat] :=
  filterProducts_malformed_price.1 [shoe, hat] "xyz" (by decide)

/-- C7: getById yields null exactly on a thrown error or a non-ok
response and the parsed body on an ok response; the route answers 200
with the product when getById yields a record and 404 with an error
object when it yields null. -/
theorem getById_route_spec (r : ItemFetch) :
    (r = .netError → getById r = none) ∧
    (∀ b, r = .httpResponse false b → getById r = none) ∧
    (∀ b, r = .httpResponse true b → getById r = some b) ∧
    (∀ p, getById r = some p → productByIdRoute r = (200, RouteBody.productBody p)) ∧
    (getById r = none → ∃ msg, productByIdRoute r = (404, RouteBody.errorBody msg)) := by
  refine ⟨?_, ?_, ?_, ?_, ?_⟩
  · rintro rfl
    rfl
  · rintro b rfl
    rfl
  · rintro b rfl
    rfl
  · intro p hp
    simp [productByIdRoute, hp]
  · intro hp
    exact ⟨"Sản phẩm không tồn tại", by simp [productByIdRoute, hp]⟩

/-- Witness for C7: a network error maps to null, and an ok response
carrying the Shoe record is served as a 200 with that record. -/
theorem getById_route_spec_witness :
    getById ItemFetch.netError = none ∧
    productByIdRoute (ItemFetch.httpResponse true shoe) = (200, RouteBody.productBody shoe) :=
  ⟨(getById_route_spec .netError).1 rfl,
    (getById_route_spec (.httpResponse true shoe)).2.2.2.1 shoe rfl⟩

/-- C8: on records whose examined fields have their documented shapes
and a constraint mapping whose fields are absent or strings, the filter
with every fallible method call explicit returns normally with a list;
the defaulting in the code covers every error branch. -/
theorem filterProductsE_total (products : List RawProduct) (query : RawQuery)
    (hp : ∀ p ∈ products, strOrUndef p.title ∧ strOrUndef p.slug ∧ numOrUndef p.price)
    (hq : strOrUndef query.title ∧ strOrUndef query.slug ∧
      strOrUndef query.minPrice ∧ strOrUndef query.maxPrice) :
    ∃ r, filterProductsE products query = Except.ok r := by
  obtain ⟨r1, h1, _⟩ := titlePassE_ok query products hq.1 (fun p hp2 => (hp p hp2).1)
  obtain ⟨r2, h2, _⟩ := slugPassE_ok query r1 hq.2.1
  exact ⟨maxPricePassE query (minPricePassE query r2), by
    simp [filterProductsE, h1, h2, okBind, pureOk]⟩

/-- Witness for C8: a concrete shaped record and constraint mapping
produce an ok result. -/
theorem filterProductsE_total_witness :
    ∃ r, filterProductsE [⟨JSVal.str "Shoe", JSVal.undef, JSVal.num 10⟩]
      ⟨JSVal.str "sho", JSVal.undef, JSVal.undef, JSVal.undef⟩ = Except.ok r :=
  filterProductsE_total _ _
    (by
      intro p hp
      simp at hp
      subst hp
      exact ⟨Or.inr ⟨_, rfl⟩, Or.inl rfl, Or.inr ⟨_, rfl⟩⟩)
    ⟨Or.inr ⟨_, rfl⟩, Or.inl rfl, Or.inl rfl, Or.inl rfl⟩

/-- C9: in the store-passing model, filterProducts leaves the store of
records untouched and only narrows the copied reference list: no record
and no input cell is mutated. -/
theorem filterProductsST_frame (st : Store) (refs : List Nat) (q : Query) :
    (filterProductsST st refs q).1 = st ∧
    List.Sublist (filterProductsST st refs q).2 refs := by
  have h1 := titlePassST_frame q (st, refs)
  have h2 := slugPassST_frame q (titlePassST q (st, refs))
  have h3 := minPricePassST_frame q (slugPassST q (titlePassST q (st, refs)))
  have h4 := maxPricePassST_frame q
    (minPricePassST q (slugPassST q (titlePassST q (st, refs))))
  constructor
  · show (maxPricePassST q _).1 = st
    rw [h4.1, h3.1, h2.1, h1.1]
  · exact h4.2.trans (h3.2.trans (h2.2.trans h1.2))

/-- C10: the output of filterProducts is a subsequence of its input:
every output record occurs in the input, no record is taken more often
than it occurs, and the relative order is preserved. -/
theorem filterProducts_subseq (l : List Product) (q : Query) :
    List.Sublist (filterProducts l q) l ∧
    (∀ p, p ∈ filterProducts l q → p ∈ l) ∧
    (∀ p, List.count p (filterProducts l q) ≤ List.count p l) := by
  have h : List.Sublist (filterProducts l q) l := by
    rw [filterProducts_eq_keepAll]
    exact List.filter_sublist l
  exact ⟨h, fun p hp => h.subset hp, fun p => h.count_le p⟩

/-- Witness for C10: the membership part of the subsequence property at
a concrete filtered list. -/
theorem filterProducts_subseq_witness : hat ∈ [shoe, hat] :=
  (filterProducts_subseq [shoe, hat] ⟨none, none, some "20", none⟩).2.1 hat (by decide)

end NNPTUD
